import Mathlib

set_option maxHeartbeats 1000000

/-!
Verification of the personality-profiler export parsers
(`parse_twitter.py`, `parse_instagram.py`, `parse_linkedin.py`).

The Python sources are shallowly embedded: dictionaries become structures or
association lists, raising an exception becomes `Except.error`, `None` becomes
`Option.none`, and the filesystem is a record of the (already JSON/CSV-decoded)
files a platform export may contain.  Machine-level details that no theorem
depends on (CLI argument handling, printing) are out of scope, as in the
system's own design document.
-/

/-! ## Python text primitives -/

/-- The code points `str.strip()` removes (Python's `str.isspace` set). -/
def pySpaceCodes : List Nat :=
  [9, 10, 11, 12, 13, 28, 29, 30, 31, 32, 0x85, 0xa0, 0x1680,
   0x2000, 0x2001, 0x2002, 0x2003, 0x2004, 0x2005, 0x2006, 0x2007,
   0x2008, 0x2009, 0x200a, 0x2028, 0x2029, 0x202f, 0x205f, 0x3000]

def isPySpace (c : Char) : Bool := pySpaceCodes.contains c.toNat

/-- Truthiness of `s.strip()` in Python: true iff `s` has a non-whitespace
character.  This is the guard `if not content.strip(): continue` in all
three parsers. -/
def stripTruthy (s : String) : Bool := s.data.any (fun c => !(isPySpace c))

/-! ## Encoding repair (`fix_encoding` in parse_instagram.py)

`text.encode('latin1')` maps each code point `≤ 255` to one byte and raises
otherwise; `bytes.decode('utf-8')` is strict UTF-8 (no overlong forms, no
surrogates, max U+10FFFF), exactly the branches below. -/

def latin1Encode : List Char → Option (List Nat)
  | [] => some []
  | c :: cs => if c.toNat ≤ 255 then (latin1Encode cs).map (c.toNat :: ·) else none

def isCont (b : Nat) : Bool := 0x80 ≤ b && b ≤ 0xBF

/-- Decode a two-byte UTF-8 sequence whose lead byte is `b` (`0xC2..0xDF`). -/
def utf8Dec2 (b : Nat) : List Nat → Option (Nat × List Nat)
  | b1 :: r => if isCont b1 then some ((b - 0xC0) * 0x40 + (b1 - 0x80), r) else none
  | [] => none

/-- Decode a three-byte UTF-8 sequence whose lead byte is `b` (`0xE0..0xEF`);
the first continuation range excludes overlong forms (`0xE0`) and surrogates
(`0xED`). -/
def utf8Dec3 (b : Nat) : List Nat → Option (Nat × List Nat)
  | b1 :: b2 :: r =>
    if (if b = 0xE0 then 0xA0 else 0x80) ≤ b1 && b1 ≤ (if b = 0xED then 0x9F else 0xBF)
        && isCont b2 then
      some ((b - 0xE0) * 0x1000 + (b1 - 0x80) * 0x40 + (b2 - 0x80), r)
    else none
  | _ => none

/-- Decode a four-byte UTF-8 sequence whose lead byte is `b` (`0xF0..0xF4`);
the first continuation range excludes overlong forms (`0xF0`) and code points
above U+10FFFF (`0xF4`). -/
def utf8Dec4 (b : Nat) : List Nat → Option (Nat × List Nat)
  | b1 :: b2 :: b3 :: r =>
    if (if b = 0xF0 then 0x90 else 0x80) ≤ b1 && b1 ≤ (if b = 0xF4 then 0x8F else 0xBF)
        && isCont b2 && isCont b3 then
      some ((b - 0xF0) * 0x40000 + (b1 - 0x80) * 0x1000 + (b2 - 0x80) * 0x40 + (b3 - 0x80), r)
    else none
  | _ => none

/-- Decode one code point from the front of a byte list (strict UTF-8). -/
def utf8Split1 : List Nat → Option (Nat × List Nat)
  | [] => none
  | b :: bs =>
    if b < 0x80 then some (b, bs)
    else if 0xC2 ≤ b && b ≤ 0xDF then utf8Dec2 b bs
    else if 0xE0 ≤ b && b ≤ 0xEF then utf8Dec3 b bs
    else if 0xF0 ≤ b && b ≤ 0xF4 then utf8Dec4 b bs
    else none

/-- The decode loop, with fuel bounding the number of decoded code points.
Each step consumes at least one byte, so fuel equal to the byte count (as used
in `utf8Decode`) never runs out. -/
def utf8DecodeGo : Nat → List Nat → Option (List Nat)
  | _, [] => some []
  | 0, _ :: _ => none
  | fuel + 1, b :: bs =>
    match utf8Split1 (b :: bs) with
    | some (cp, r) => (utf8DecodeGo fuel r).map (cp :: ·)
    | none => none

/-- Strict UTF-8 decoding of a byte list into code points, as Python's
`bytes.decode('utf-8')` (any failure is `none`). -/
def utf8Decode (l : List Nat) : Option (List Nat) := utf8DecodeGo l.length l

/-- Embedding of `fix_encoding` (parse_instagram.py, lines 17-25): reinterpret
the text's code points as Latin-1 bytes and re-decode them as UTF-8; if either
step fails, return the text unchanged.  `if not text: return ''` is the empty
string test. -/
def fix_encoding (s : String) : String :=
  if s = "" then ""
  else
    match (latin1Encode s.data).bind utf8Decode with
    | some cps => String.mk (cps.map Char.ofNat)
    | none => s

/-! ## Timestamp conversion (`parse_timestamp` in parse_instagram.py)

`datetime.utcfromtimestamp(ts).isoformat() + 'Z'` for integer epoch seconds:
the proleptic-Gregorian civil date of `ts` seconds after 1970-01-01T00:00:00
UTC, rendered as `YYYY-MM-DDTHH:MM:SS` with a trailing `Z`.  Python accepts
epochs up to year 9999; the embedding models the non-negative range. -/

def isLeap (y : Nat) : Bool := decide (y % 4 = 0 ∧ (y % 100 ≠ 0 ∨ y % 400 = 0))

def daysInYear (y : Nat) : Nat := if isLeap y then 366 else 365

def monthDays (y m : Nat) : Nat :=
  if m = 2 then (if isLeap y then 29 else 28)
  else if m = 4 ∨ m = 6 ∨ m = 9 ∨ m = 11 then 30
  else 31

/-- Strip whole years off a day count, starting at year `y`.  Each step
consumes at least 365 days, so fuel equal to the day count never runs out. -/
def splitYearGo : Nat → Nat → Nat → Nat × Nat
  | 0, y, d => (y, d)
  | fuel + 1, y, d =>
    if d < daysInYear y then (y, d) else splitYearGo fuel (y + 1) (d - daysInYear y)

/-- Strip whole months off a day count within year `y`, starting at month
`m`.  Each step consumes at least 28 days. -/
def splitMonthGo : Nat → Nat → Nat → Nat → Nat × Nat
  | 0, _, m, d => (m, d)
  | fuel + 1, y, m, d =>
    if d < monthDays y m then (m, d) else splitMonthGo fuel y (m + 1) (d - monthDays y m)

/-- Total days in the `k` consecutive years starting at `y`. -/
def yearsSumGo : Nat → Nat → Nat
  | 0, _ => 0
  | k + 1, y => daysInYear y + yearsSumGo k (y + 1)

def yearsSum (a b : Nat) : Nat := yearsSumGo (b - a) a

/-- Total days in months `a, a+1, ...` (`k` of them) of year `y`. -/
def monthsSumGo : Nat → Nat → Nat → Nat
  | 0, _, _ => 0
  | k + 1, y, m => monthDays y m + monthsSumGo k y (m + 1)

def monthsSum (y a b : Nat) : Nat := monthsSumGo (b - a) y a

structure UtcTime where
  year : Nat
  month : Nat
  day : Nat
  hour : Nat
  minute : Nat
  second : Nat
deriving DecidableEq

/-- The calendar fields of `datetime.utcfromtimestamp(t)` for `t ≥ 0`. -/
def utcfromtimestamp (t : Nat) : UtcTime :=
  let days := t / 86400
  let secs := t % 86400
  let yd := splitYearGo days 1970 days
  let md := splitMonthGo yd.2 yd.1 1 yd.2
  { year := yd.1, month := md.1, day := md.2 + 1,
    hour := secs / 3600, minute := secs % 3600 / 60, second := secs % 60 }

/-- A decimal digit character. -/
def dChar : Nat → Char
  | 0 => '0' | 1 => '1' | 2 => '2' | 3 => '3' | 4 => '4'
  | 5 => '5' | 6 => '6' | 7 => '7' | 8 => '8' | _ => '9'

def dVal (c : Char) : Nat := c.toNat - 48

def isDig (c : Char) : Bool := 48 ≤ c.toNat && c.toNat ≤ 57

/-- Zero-padded two-digit decimal rendering (`%02d`). -/
def pad2 (n : Nat) : String := String.mk [dChar (n / 10 % 10), dChar (n % 10)]

/-- Zero-padded four-digit decimal rendering (`%04d`). -/
def pad4 (n : Nat) : String :=
  String.mk [dChar (n / 1000 % 10), dChar (n / 100 % 10), dChar (n / 10 % 10), dChar (n % 10)]

/-- Embedding of `parse_timestamp` (parse_instagram.py, lines 28-30):
`datetime.utcfromtimestamp(ts).isoformat() + 'Z'`. -/
def parse_timestamp (t : Nat) : String :=
  let u := utcfromtimestamp t
  pad4 u.year ++ "-" ++ pad2 u.month ++ "-" ++ pad2 u.day ++ "T" ++
    pad2 u.hour ++ ":" ++ pad2 u.minute ++ ":" ++ pad2 u.second ++ "Z"

/-- Days from 1970-01-01 to the civil date `(y, m, d)`. -/
def daysFromCivil (y m d : Nat) : Nat := yearsSum 1970 y + monthsSum y 1 m + (d - 1)

def readDig : List Char → Option (Nat × List Char)
  | c :: r => if isDig c then some (dVal c, r) else none
  | [] => none

def readSep (x : Char) : List Char → Option (List Char)
  | c :: r => if c = x then some r else none
  | [] => none

def read2 (l : List Char) : Option (Nat × List Char) :=
  (readDig l).bind fun p => (readDig p.2).map fun q => (p.1 * 10 + q.1, q.2)

def read4 (l : List Char) : Option (Nat × List Char) :=
  (read2 l).bind fun p => (read2 p.2).map fun q => (p.1 * 100 + q.1, q.2)

/-- Parse a `YYYY-MM-DDTHH:MM:SSZ` string back to epoch seconds. -/
def parseIsoZ (s : String) : Option Nat :=
  (read4 s.data).bind fun y =>
  (readSep '-' y.2).bind fun r1 =>
  (read2 r1).bind fun mo =>
  (readSep '-' mo.2).bind fun r2 =>
  (read2 r2).bind fun dd =>
  (readSep 'T' dd.2).bind fun r3 =>
  (read2 r3).bind fun hh =>
  (readSep ':' hh.2).bind fun r4 =>
  (read2 r4).bind fun mi =>
  (readSep ':' mi.2).bind fun r5 =>
  (read2 r5).bind fun ss =>
  (readSep 'Z' ss.2).bind fun r6 =>
  if r6 = [] then
    some (daysFromCivil y.1 mo.1 dd.1 * 86400 + hh.1 * 3600 + mi.1 * 60 + ss.1)
  else none

/-- Closed form for cumulative year lengths: days in the years `[0, y)`. -/
def daysUpto (y : Nat) : Nat :=
  365 * y + (y + 3) / 4 - (y + 99) / 100 + (y + 399) / 400

/-! ## Unified data model

The unified activity item every extractor emits.  Python `None` is `none`;
a metadata key that a platform never sets is modelled by its default. -/

structure Meta where
  platform : String
  engagement : List (String × Nat)
  context : Option String := none
  hashtags : List String := []
  mentions : List String := []
  reaction_type : Option String := none
  media_type : Option String := none
deriving DecidableEq

structure Item where
  id : String
  type : String
  timestamp : Option String
  content : String
  metadata : Meta
deriving DecidableEq

/-! ## Aggregation helpers

Python compares strings lexicographically by code point; `charsLt` is that
order, and `pyMin`/`pyMax` are the accumulator steps of Python's `min`/`max`
over a list. -/

def charsLt : List Char → List Char → Bool
  | [], [] => false
  | [], _ :: _ => true
  | _ :: _, [] => false
  | a :: as, b :: bs =>
    if a.toNat < b.toNat then true else if b.toNat < a.toNat then false else charsLt as bs

def pyMin (acc x : String) : String := if charsLt x.data acc.data then x else acc

def pyMax (acc x : String) : String := if charsLt acc.data x.data then x else acc

/-- The list comprehension `[i['timestamp'] for i in items if i['timestamp']]`:
timestamps that are neither `None` nor the empty string (Python truthiness). -/
def truthyTimestamps (items : List Item) : List String :=
  items.filterMap fun i => i.timestamp.bind fun s => if s ≠ "" then some s else none

/-- The date-range computation shared by the parsers' `main` functions:
`min`/`max` over the truthy timestamps, or `none` when there are none (the
`date_range` key is then omitted from the result). -/
def dateRangeOf (items : List Item) : Option (String × String) :=
  match truthyTimestamps items with
  | [] => none
  | d0 :: ds => some (ds.foldl pyMin d0, ds.foldl pyMax d0)

/-! ## Textual date parsing helpers (strptime patterns used by the parsers) -/

/-- Split a character list on a separator (Python `str.split(sep)`). -/
def splitOnCharGo (sep : Char) : List Char → List Char → List (List Char)
  | [], acc => [acc.reverse]
  | c :: cs, acc =>
    if c = sep then acc.reverse :: splitOnCharGo sep cs [] else splitOnCharGo sep cs (c :: acc)

/-- Value of a non-empty all-digit token. -/
def digitsVal (l : List Char) : Option Nat :=
  if l ≠ [] ∧ l.all isDig then some (l.foldl (fun a c => a * 10 + dVal c) 0) else none

/-- Parse `HH:MM:SS` (bounds as `datetime` enforces them). -/
def parseHms (l : List Char) : Option (Nat × Nat × Nat) :=
  match splitOnCharGo ':' l [] with
  | [hs, ms, ss] =>
    (digitsVal hs).bind fun h =>
    (digitsVal ms).bind fun mi =>
    (digitsVal ss).bind fun sec =>
      if hs.length ≤ 2 ∧ ms.length ≤ 2 ∧ ss.length ≤ 2 ∧ h ≤ 23 ∧ mi ≤ 59 ∧ sec ≤ 59 then
        some (h, mi, sec)
      else none
  | _ => none

/-- Parse `YYYY-MM-DD` with `datetime`'s field validation. -/
def parseYmd (l : List Char) : Option (Nat × Nat × Nat) :=
  match splitOnCharGo '-' l [] with
  | [ys, ms, ds] =>
    (digitsVal ys).bind fun y =>
    (digitsVal ms).bind fun mo =>
    (digitsVal ds).bind fun dd =>
      if ys.length ≤ 4 ∧ ms.length ≤ 2 ∧ ds.length ≤ 2 ∧ 1 ≤ y ∧ y ≤ 9999 ∧
          1 ≤ mo ∧ mo ≤ 12 ∧ 1 ≤ dd ∧ dd ≤ monthDays y mo then
        some (y, mo, dd)
      else none
  | _ => none

/-- Python `s.strip()` as a character list. -/
def pyStrip (s : String) : List Char :=
  ((s.data.dropWhile isPySpace).reverse.dropWhile isPySpace).reverse

/-! ## Twitter pipeline (parse_twitter.py) -/

namespace Twitter

def wdNames : List String := ["Mon", "Tue", "Wed", "Thu", "Fri", "Sat", "Sun"]

def monthNames : List String :=
  ["Jan", "Feb", "Mar", "Apr", "May", "Jun", "Jul", "Aug", "Sep", "Oct", "Nov", "Dec"]

def monthNum (s : String) : Option Nat := (monthNames.findIdx? (· == s)).map (· + 1)

/-- Parse a `±HHMM` strptime `%z` offset. -/
def parseOffset : List Char → Option (Bool × Nat × Nat)
  | [sgn, o1, o2, o3, o4] =>
    if (sgn = '+' ∨ sgn = '-') ∧ isDig o1 ∧ isDig o2 ∧ isDig o3 ∧ isDig o4 then
      let oh := dVal o1 * 10 + dVal o2
      let om := dVal o3 * 10 + dVal o4
      if oh ≤ 23 ∧ om ≤ 59 then some (sgn = '-', oh, om) else none
    else none
  | _ => none

/-- The fields of a parsed `"%a %b %d %H:%M:%S %z %Y"` date. -/
structure TwDate where
  y : Nat
  mo : Nat
  dd : Nat
  hh : Nat
  mi : Nat
  ss : Nat
  negOff : Bool
  oh : Nat
  om : Nat
deriving DecidableEq

/-- `datetime.isoformat()` of an offset-aware datetime. -/
def isoOfTwDate (d : TwDate) : String :=
  pad4 d.y ++ "-" ++ pad2 d.mo ++ "-" ++ pad2 d.dd ++ "T" ++ pad2 d.hh ++ ":" ++ pad2 d.mi ++
    ":" ++ pad2 d.ss ++ (if d.negOff then "-" else "+") ++ pad2 d.oh ++ ":" ++ pad2 d.om

/-- `strptime(date_str, "%a %b %d %H:%M:%S %z %Y")` for strings like
`"Wed Oct 10 20:19:24 +0000 2018"`. -/
def twParse (s : String) : Option TwDate :=
  match splitOnCharGo ' ' s.data [] with
  | [wd, mon, dayc, hmsc, offc, yrc] =>
    if wdNames.contains (String.mk wd) then
      (monthNum (String.mk mon)).bind fun mo =>
      (digitsVal dayc).bind fun dd =>
      (parseHms hmsc).bind fun hms =>
      (parseOffset offc).bind fun off =>
      (digitsVal yrc).bind fun y =>
        if dayc.length ≤ 2 ∧ yrc.length ≤ 4 ∧ 1 ≤ y ∧ y ≤ 9999 ∧ 1 ≤ dd ∧
            dd ≤ monthDays y mo then
          some { y := y, mo := mo, dd := dd, hh := hms.1, mi := hms.2.1, ss := hms.2.2,
                 negOff := off.1, oh := off.2.1, om := off.2.2 }
        else none
    else none
  | _ => none

/-- Embedding of `parse_tweet_date` (parse_twitter.py, lines 26-30), as a
partial function: `none` models the `ValueError` that `strptime` raises on a
non-matching input. -/
def parseTweetDate (s : String) : Option String := (twParse s).map isoOfTwDate

/-- The fields of a raw tweet object that the extractor reads.  `hashtags`
and `user_mentions` carry the already-projected `entities.hashtags[].text`
and `entities.user_mentions[].screen_name` lists; `favorite_count` and
`retweet_count` carry the already-`int()`-converted counts. -/
structure Tweet where
  full_text : Option String := none
  text : Option String := none
  id_str : Option String := none
  id : Option String := none
  in_reply_to_status_id_str : Option String := none
  created_at : Option String := none
  favorite_count : Nat := 0
  retweet_count : Nat := 0
  hashtags : List String := []
  user_mentions : List String := []
deriving DecidableEq

/-- A raw entry of tweets.js: either `{'tweet': {...}}` or the tweet object
itself (`entry.get('tweet', entry)`). -/
inductive TweetEntry
  | wrapped (t : Tweet)
  | bare (t : Tweet)
deriving DecidableEq

def TweetEntry.tweet : TweetEntry → Tweet
  | .wrapped t => t
  | .bare t => t

/-- The loop body of `extract_tweets` (parse_twitter.py, lines 48-72).
`tweet['created_at']` raises `KeyError` when the key is absent and
`parse_tweet_date` raises `ValueError` on a malformed date; both abort the
whole extraction, which `Except.error` models. -/
def processTweets : List TweetEntry → Except String (List Item)
  | [] => .ok []
  | e :: rest =>
    let tweet := e.tweet
    let content := tweet.full_text.getD (tweet.text.getD "")
    if stripTruthy content then
      match tweet.created_at with
      | none => .error "KeyError: created_at"
      | some ds =>
        match parseTweetDate ds with
        | none => .error "ValueError: time data does not match format"
        | some iso =>
          match processTweets rest with
          | .ok items =>
            .ok ({ id := tweet.id_str.getD (tweet.id.getD ""),
                   type := if (tweet.in_reply_to_status_id_str.getD "") ≠ "" then "reply"
                           else "post",
                   timestamp := some iso,
                   content := content,
                   metadata := { platform := "twitter",
                                 engagement := [("likes", tweet.favorite_count), ("replies", 0),
                                                ("shares", tweet.retweet_count)],
                                 context := tweet.in_reply_to_status_id_str,
                                 hashtags := tweet.hashtags,
                                 mentions := tweet.user_mentions } } :: items)
          | .error msg => .error msg
    else processTweets rest

structure TwLike where
  fullText : Option String := none
  tweetId : Option String := none
deriving DecidableEq

/-- A raw entry of like.js: `entry.get('like', entry)`. -/
inductive LikeEntry
  | wrapped (l : TwLike)
  | bare (l : TwLike)
deriving DecidableEq

def LikeEntry.like : LikeEntry → TwLike
  | .wrapped l => l
  | .bare l => l

/-- The Twitter archive as seen by the parser: each field is the parsed
content of the corresponding file under `data/`, or `none` when the file
does not exist. -/
structure TwitterFS where
  tweetsJs : Option (List TweetEntry) := none
  tweetJs : Option (List TweetEntry) := none
  likeJs : Option (List LikeEntry) := none
deriving DecidableEq

/-- Embedding of `extract_tweets` (parse_twitter.py, lines 33-74): use
`data/tweets.js`, else `data/tweet.js`, else raise `FileNotFoundError`. -/
def extract_tweets (fs : TwitterFS) : Except String (List Item) :=
  match fs.tweetsJs with
  | some raw => processTweets raw
  | none =>
    match fs.tweetJs with
    | some raw => processTweets raw
    | none => .error "FileNotFoundError: Could not find tweets.js"

/-- Embedding of `extract_likes` (parse_twitter.py, lines 94-119): a missing
like.js degrades to an empty list; entries whose `fullText` strips to empty
are dropped, all others are emitted with the liked tweet's text as content
and no timestamp. -/
def extract_likes (fs : TwitterFS) : List Item :=
  match fs.likeJs with
  | none => []
  | some raw =>
    raw.filterMap fun e =>
      let l := e.like
      let content := l.fullText.getD ""
      if stripTruthy content then
        some { id := l.tweetId.getD "", type := "like", timestamp := none, content := content,
               metadata := { platform := "twitter", engagement := [], context := none } }
      else none

structure TwitterResult where
  platform : String
  items : List Item
  total_tweets : Nat
  total_replies : Nat
  total_likes : Nat
  date_range : Option (String × String)
deriving DecidableEq

/-- Embedding of `main` (parse_twitter.py, lines 122-163), up to the point
where the result object is serialized: an `Except.error` means the run
aborted before anything was written.  The `date_range` block is guarded by
`if tweets:`; inside it, `min()`/`max()` on an empty `dates` list would
raise `ValueError`. -/
def twitterMain (fs : TwitterFS) : Except String TwitterResult :=
  match extract_tweets fs with
  | .error msg => .error msg
  | .ok tweets =>
    let likes := extract_likes fs
    let base : TwitterResult :=
      { platform := "twitter", items := tweets ++ likes,
        total_tweets := (tweets.filter (fun i => i.type == "post")).length,
        total_replies := (tweets.filter (fun i => i.type == "reply")).length,
        total_likes := likes.length,
        date_range := none }
    if tweets.isEmpty then .ok base
    else
      match truthyTimestamps tweets with
      | [] => .error "ValueError: min() arg is an empty sequence"
      | d0 :: ds => .ok { base with date_range := some (ds.foldl pyMin d0, ds.foldl pyMax d0) }

/-- The output file `main` writes: present exactly when the run completed. -/
def twitterOutput (fs : TwitterFS) : Option TwitterResult :=
  match twitterMain fs with
  | .ok r => some r
  | .error _ => none

end Twitter

/-! ## Instagram pipeline (parse_instagram.py) -/

namespace Instagram

/-- One media object (or a post record used directly as its own media). -/
structure Media where
  title : Option String := none
  uri : Option String := none
  creation_timestamp : Option Nat := none
deriving DecidableEq

/-- A raw posts record: `post.get('media', [post])` either takes the
`media` list or wraps the record itself. -/
inductive RawPost
  | wrapped (media : List Media)
  | flat (m : Media)
deriving DecidableEq

def RawPost.mediaList : RawPost → List Media
  | .wrapped ms => ms
  | .flat m => [m]

def leadsWith : List Nat → List Nat → Bool
  | [], _ => true
  | _ :: _, [] => false
  | p :: ps, c :: cs => (p == c) && leadsWith ps cs

/-- `pat in hay` on code-point lists (Python substring test). -/
def containsSeq (pat : List Nat) : List Nat → Bool
  | [] => leadsWith pat []
  | c :: cs => leadsWith pat (c :: cs) || containsSeq pat cs

/-- ASCII lowering of one code point.  Python's `str.lower()` also lowers
non-ASCII letters, but no non-ASCII character lowers to an ASCII letter of
`"photo"`, so the substring test below agrees with the source. -/
def lowerCode (n : Nat) : Nat := if 65 ≤ n ∧ n ≤ 90 then n + 32 else n

def pyLowerCodes (s : String) : List Nat := s.data.map (fun c => lowerCode c.toNat)

def photoCodes : List Nat := "photo".data.map Char.toNat

/-- The per-media body of the `extract_posts` loop (parse_instagram.py,
lines 66-82): `none` models `continue` on whitespace-only captions. -/
def emitMedia (m : Media) : Option Item :=
  let caption := fix_encoding (m.title.getD "")
  if stripTruthy caption then
    some { id := m.uri.getD "",
           type := "post",
           timestamp := m.creation_timestamp.map parse_timestamp,
           content := caption,
           metadata := { platform := "instagram", engagement := [], context := none,
                         media_type :=
                           some (if containsSeq photoCodes (pyLowerCodes (m.uri.getD ""))
                                 then "photo" else "video") } }
  else none

/-- Embedding of `extract_posts` (parse_instagram.py, lines 41-84) over the
concatenated records of all located posts files (file location drift only
changes which records are passed in; a missing content directory yields
`[]`). -/
def extract_posts (posts : List RawPost) : List Item :=
  posts.flatMap fun p => p.mediaList.filterMap emitMedia

structure StringData where
  value : Option String := none
  timestamp : Option Nat := none
deriving DecidableEq

structure CommentRec where
  string_list_data : List StringData := []
  value : Option String := none
  comment : Option String := none
  timestamp : Option Nat := none
deriving DecidableEq

/-- A raw comments-list entry; a non-dict entry leaves `text = ''` and is
dropped. -/
inductive RawComment
  | dict (c : CommentRec)
  | other
deriving DecidableEq

def commentText : RawComment → String
  | .other => ""
  | .dict c =>
    match c.string_list_data with
    | [] => fix_encoding (c.value.getD (c.comment.getD ""))
    | sd :: _ => fix_encoding (sd.value.getD "")

def commentTimestampOf : RawComment → Option Nat
  | .other => none
  | .dict c =>
    match c.string_list_data with
    | [] => c.timestamp
    | sd :: _ => sd.timestamp

/-- `parse_timestamp(timestamp) if timestamp else None`: integer truthiness,
so an epoch of `0` also yields `None`. -/
def timestampIfTruthy : Option Nat → Option String
  | some ts => if ts ≠ 0 then some (parse_timestamp ts) else none
  | none => none

/-- Embedding of `extract_comments` (parse_instagram.py, lines 87-136) over
the located comments list. -/
def extract_comments (comments : List RawComment) : List Item :=
  comments.filterMap fun cm =>
    let text := commentText cm
    if stripTruthy text then
      some { id := "", type := "comment",
             timestamp := timestampIfTruthy (commentTimestampOf cm),
             content := text,
             metadata := { platform := "instagram", engagement := [], context := none } }
    else none

/-- A raw likes-list entry; non-dict entries keep `timestamp = None`. -/
inductive RawLike
  | dict (string_list_data : List StringData) (timestamp : Option Nat)
  | other
deriving DecidableEq

def likeTimestampOf : RawLike → Option Nat
  | .dict sld ts =>
    match sld with
    | [] => ts
    | sd :: _ => sd.timestamp
  | .other => none

/-- Embedding of `extract_likes` (parse_instagram.py, lines 139-174): every
raw record is emitted, with empty `id` and empty `content` (the export has
no liked-content text). -/
def extract_likes (likes : List RawLike) : List Item :=
  likes.map fun lk =>
    { id := "", type := "like",
      timestamp := timestampIfTruthy (likeTimestampOf lk),
      content := "",
      metadata := { platform := "instagram", engagement := [], context := none } }

structure InstagramResult where
  platform : String
  items : List Item
  total_posts : Nat
  total_comments : Nat
  total_likes : Nat
  date_range : Option (String × String)
deriving DecidableEq

/-- Embedding of `main` (parse_instagram.py, lines 201-245) after file
loading: aggregate items in the fixed order posts, comments, likes; count
each kind; attach `date_range` only when some item has a truthy timestamp. -/
def instagramMain (posts : List RawPost) (comments : List RawComment)
    (likes : List RawLike) : InstagramResult :=
  let ps := extract_posts posts
  let cs := extract_comments comments
  let ls := extract_likes likes
  let allItems := ps ++ cs ++ ls
  { platform := "instagram", items := allItems,
    total_posts := ps.length, total_comments := cs.length, total_likes := ls.length,
    date_range := dateRangeOf allItems }

end Instagram

/-! ## LinkedIn pipeline (parse_linkedin.py) -/

namespace LinkedIn

/-- A `csv.DictReader` row: field name to value, keys unique. -/
abbrev Row := List (String × String)

/-- `row.get(k)`. -/
def dlookup (row : Row) (k : String) : Option String :=
  (row.find? (fun p => p.1 == k)).map (·.2)

/-- `row.get(k, d)`. -/
def dget (row : Row) (k d : String) : String := (dlookup row k).getD d

/-- Embedding of `parse_date` (parse_linkedin.py, lines 18-32): strip, try
`%Y-%m-%d`, then `%Y-%m-%d %H:%M:%S`, rendering `datetime.isoformat()`;
`None` on empty input or when neither pattern matches. -/
def parse_date (s : String) : Option String :=
  if s = "" then none
  else
    let t := pyStrip s
    match parseYmd t with
    | some (y, mo, dd) => some (pad4 y ++ "-" ++ pad2 mo ++ "-" ++ pad2 dd ++ "T00:00:00")
    | none =>
      match splitOnCharGo ' ' t [] with
      | [dpart, tpart] =>
        (parseYmd dpart).bind fun ymd =>
        (parseHms tpart).bind fun hms =>
          some (pad4 ymd.1 ++ "-" ++ pad2 ymd.2.1 ++ "-" ++ pad2 ymd.2.2 ++ "T" ++
            pad2 hms.1 ++ ":" ++ pad2 hms.2.1 ++ ":" ++ pad2 hms.2.2)
      | _ => none

/-- Embedding of `extract_shares` (parse_linkedin.py, lines 48-71). -/
def extract_shares (rows : List Row) : List Item :=
  rows.filterMap fun share =>
    let content := dget share "ShareCommentary" (dget share "Share Commentary" "")
    if stripTruthy content then
      some { id := dget share "ShareLink" (dget share "Share Link" ""),
             type := "post",
             timestamp := parse_date (dget share "Date" ""),
             content := content,
             metadata := { platform := "linkedin", engagement := [],
                           context := some (dget share "ShareLink"
                             (dget share "Share Link" "")) } }
    else none

/-- Embedding of `extract_comments` (parse_linkedin.py, lines 74-97). -/
def extract_comments (rows : List Row) : List Item :=
  rows.filterMap fun comment =>
    let content := dget comment "Message" (dget comment "Comment" "")
    if stripTruthy content then
      some { id := dget comment "Link" "",
             type := "comment",
             timestamp := parse_date (dget comment "Date" ""),
             content := content,
             metadata := { platform := "linkedin", engagement := [],
                           context := some (dget comment "Link" "") } }
    else none

/-- Embedding of `extract_reactions` (parse_linkedin.py, lines 100-120):
every row is emitted, with empty content. -/
def extract_reactions (rows : List Row) : List Item :=
  rows.map fun reaction =>
    { id := dget reaction "Link" "",
      type := "like",
      timestamp := parse_date (dget reaction "Date" ""),
      content := "",
      metadata := { platform := "linkedin", engagement := [],
                    context := some (dget reaction "Link" ""),
                    reaction_type := some (dget reaction "Type" "LIKE") } }

/-- Embedding of `extract_skills` (parse_linkedin.py, lines 146-150). -/
def extract_skills (rows : List Row) : List String :=
  rows.filterMap fun s =>
    match dlookup s "Name" with
    | some v => if v ≠ "" then some v else none
    | none => none

structure LinkedInResult where
  platform : String
  positions : List Row
  skills : List String
  items : List Item
  total_shares : Nat
  total_comments : Nat
  total_reactions : Nat
  date_range : Option (String × String)
deriving DecidableEq

/-- Embedding of `main` (parse_linkedin.py, lines 153-201) after file
loading. -/
def linkedinMain (shares comments reactions positions skills : List Row) : LinkedInResult :=
  let sh := extract_shares shares
  let cs := extract_comments comments
  let rs := extract_reactions reactions
  let allItems := sh ++ cs ++ rs
  { platform := "linkedin", positions := positions, skills := extract_skills skills,
    items := allItems, total_shares := sh.length, total_comments := cs.length,
    total_reactions := rs.length, date_range := dateRangeOf allItems }

end LinkedIn

/-- A Twitter archive with no tweets and one liked tweet with text. -/
def cexLikeFS : Twitter.TwitterFS :=
  { tweetsJs := some [],
    likeJs := some [Twitter.LikeEntry.bare { fullText := some "hello", tweetId := some "1" }] }

def cexLikeItem : Item :=
  { id := "1", type := "like", timestamp := none, content := "hello",
    metadata := { platform := "twitter", engagement := [], context := none } }

def cexLikeResult : Twitter.TwitterResult :=
  { platform := "twitter", items := [cexLikeItem],
    total_tweets := 0, total_replies := 0, total_likes := 1, date_range := none }

/-- A Twitter archive whose only tweet has text but no `created_at`. -/
def cexNoDateFS : Twitter.TwitterFS :=
  { tweetsJs := some [Twitter.TweetEntry.bare { full_text := some "hi" }] }

/-- The property C5 asserts of an aggregated result: whenever some item has
a non-null timestamp, `date_range` is present with `start`/`end` the
lexicographic minimum/maximum over the items' timestamps, both drawn from
actual item timestamps; with no timestamped item, `date_range` is absent. -/
def DateRangeCorrect (items : List Item) (dr : Option (String × String)) : Prop :=
  ((∃ i ∈ items, i.timestamp ≠ none) →
    ∃ a b, dr = some (a, b) ∧
      (∃ i ∈ items, i.timestamp = some a) ∧
      (∃ i ∈ items, i.timestamp = some b) ∧
      a ≤ b ∧
      (∀ i ∈ items, ∀ s, i.timestamp = some s → a ≤ s ∧ s ≤ b)) ∧
  ((∀ i ∈ items, i.timestamp = none) → dr = none)

/-- Two timestamped posts and one timestampless like, as in the spec's
date-range scenario. -/
def wPosts : List Instagram.RawPost :=
  [Instagram.RawPost.flat { title := some "a", creation_timestamp := some 2000000 },
   Instagram.RawPost.flat { title := some "b", creation_timestamp := some 1000000 }]

def wLikes : List Instagram.RawLike := [Instagram.RawLike.other]

theorem latin1Encode_eq_map : ∀ l : List Char, (∀ c ∈ l, c.toNat ≤ 255) →
    latin1Encode l = some (l.map Char.toNat) := by
  intro l h
  induction l with
  | nil => rfl
  | cons c cs ih =>
    have hc : c.toNat ≤ 255 := h c (by simp)
    simp [latin1Encode, hc, ih (fun x hx => h x (by simp [hx]))]

theorem latin1Encode_none : ∀ l : List Char, (∃ c ∈ l, 255 < c.toNat) →
    latin1Encode l = none := by
  intro l h
  induction l with
  | nil => simp at h
  | cons c cs ih =>
    rcases h with ⟨d, hd, hgt⟩
    rcases List.mem_cons.1 hd with rfl | hmem
    · simp [latin1Encode, Nat.not_le.2 hgt]
    · simp only [latin1Encode]
      split
      · rw [ih ⟨d, hmem, hgt⟩]; rfl
      · rfl

theorem utf8DecodeGo_ascii : ∀ (fuel : Nat) (l : List Nat), l.length ≤ fuel →
    (∀ b ∈ l, b < 0x80) → utf8DecodeGo fuel l = some l := by
  intro fuel
  induction fuel with
  | zero =>
    intro l hl _
    cases l with
    | nil => rfl
    | cons b bs => simp at hl
  | succ f ih =>
    intro l hl hb
    cases l with
    | nil => rfl
    | cons b bs =>
      have hb0 : b < 0x80 := hb b (by simp)
      have hsplit : utf8Split1 (b :: bs) = some (b, bs) := by
        simp [utf8Split1, hb0]
      have hlen : bs.length ≤ f := by simpa using hl
      rw [utf8DecodeGo, hsplit]
      dsimp only
      rw [ih bs hlen (fun x hx => hb x (by simp [hx]))]
      rfl

theorem utf8Decode_ascii (l : List Nat) (h : ∀ b ∈ l, b < 0x80) :
    utf8Decode l = some l :=
  utf8DecodeGo_ascii l.length l le_rfl h

theorem string_mk_data (s : String) : String.mk s.data = s := by
  cases s; rfl

/-- C4 (amended): the encoding repair is idempotent on every input whose
repaired form is pure ASCII or contains a character beyond Latin-1 (in
particular on already-correct recovered text); it is not idempotent in
general, because doubly mis-encoded text is unwrapped one layer per
application (see the counterexample below). -/
theorem fix_encoding_idem_of_ascii_or_nonlatin1 (s : String)
    (h : (∀ c ∈ (fix_encoding s).data, c.toNat < 128) ∨
         (∃ c ∈ (fix_encoding s).data, 255 < c.toNat)) :
    fix_encoding (fix_encoding s) = fix_encoding s := by
  set t := fix_encoding s with ht
  by_cases hte : t = ""
  · rw [hte]; rfl
  rcases h with hascii | hbig
  · have h255 : ∀ c ∈ t.data, c.toNat ≤ 255 := fun c hc =>
      Nat.le_of_lt (Nat.lt_of_lt_of_le (hascii c hc) (by norm_num))
    have hd : utf8Decode (t.data.map Char.toNat) = some (t.data.map Char.toNat) :=
      utf8Decode_ascii _ (by
        intro b hb
        rcases List.mem_map.1 hb with ⟨c, hc, rfl⟩
        exact hascii c hc)
    rw [fix_encoding, if_neg hte, latin1Encode_eq_map t.data h255, Option.some_bind, hd]
    dsimp only
    rw [List.map_map]
    have hmap : t.data.map (Char.ofNat ∘ Char.toNat) = t.data.map id :=
      List.map_congr_left (fun c _ => Char.ofNat_toNat c)
    rw [hmap, List.map_id, string_mk_data]
  · rw [fix_encoding, if_neg hte, latin1Encode_none t.data hbig]
    rfl

/-- C4, counterexample: `fix_encoding` applied to the doubly mis-encoded text
`"Ã\u0083Â©"` yields `"Ã©"`, and a second application changes it again to
`"é"`, so the repair is not idempotent as claimed. -/
theorem fix_encoding_not_idempotent :
    fix_encoding (fix_encoding "Ã\u0083Â©") ≠
      fix_encoding "Ã\u0083Â©" := by decide

/-- Witness for `fix_encoding_idem_of_ascii_or_nonlatin1` at the concrete
input `"hello"`. -/
theorem fix_encoding_idem_witness :
    ((∀ c ∈ (fix_encoding "hello").data, c.toNat < 128) ∨
     (∃ c ∈ (fix_encoding "hello").data, 255 < c.toNat)) ∧
    fix_encoding (fix_encoding "hello") = fix_encoding "hello" :=
  ⟨Or.inl (by decide), fix_encoding_idem_of_ascii_or_nonlatin1 "hello" (Or.inl (by decide))⟩

/-! ### Round-trip lemmas for `parse_timestamp` (claim C8) -/

theorem daysInYear_ge (y : Nat) : 365 ≤ daysInYear y := by
  unfold daysInYear; split <;> omega

theorem daysInYear_le (y : Nat) : daysInYear y ≤ 366 := by
  unfold daysInYear; split <;> omega

theorem monthDays_ge (y m : Nat) : 28 ≤ monthDays y m := by
  unfold monthDays; split_ifs <;> omega

theorem monthDays_le (y m : Nat) : monthDays y m ≤ 31 := by
  unfold monthDays; split_ifs <;> omega

theorem yearsSum_succ_left (y Y : Nat) (h : y < Y) :
    yearsSum y Y = daysInYear y + yearsSum (y + 1) Y := by
  unfold yearsSum
  have hk : Y - y = (Y - (y + 1)) + 1 := by omega
  rw [hk]
  rfl

theorem monthsSum_succ_left (y m M : Nat) (h : m < M) :
    monthsSum y m M = monthDays y m + monthsSum y (m + 1) M := by
  unfold monthsSum
  have hk : M - m = (M - (m + 1)) + 1 := by omega
  rw [hk]
  rfl

theorem yearsSum_self (y : Nat) : yearsSum y y = 0 := by
  unfold yearsSum
  rw [Nat.sub_self]
  rfl

theorem monthsSum_self (y m : Nat) : monthsSum y m m = 0 := by
  unfold monthsSum
  rw [Nat.sub_self]
  rfl

theorem splitYearGo_spec : ∀ (fuel y d : Nat), d ≤ fuel →
    yearsSum y (splitYearGo fuel y d).1 + (splitYearGo fuel y d).2 = d ∧
    (splitYearGo fuel y d).2 < daysInYear (splitYearGo fuel y d).1 ∧
    y ≤ (splitYearGo fuel y d).1 := by
  intro fuel
  induction fuel with
  | zero =>
    intro y d hd
    have hd0 : d = 0 := Nat.le_zero.1 hd
    subst hd0
    refine ⟨?_, ?_, le_rfl⟩
    · rw [splitYearGo, yearsSum_self]
      rfl
    · rw [splitYearGo]
      exact Nat.lt_of_lt_of_le (by norm_num) (daysInYear_ge y)
  | succ f ih =>
    intro y d hd
    by_cases hlt : d < daysInYear y
    · rw [splitYearGo, if_pos hlt]
      exact ⟨by rw [yearsSum_self]; simp, hlt, le_rfl⟩
    · push_neg at hlt
      have h365 := daysInYear_ge y
      have h1 : d - daysInYear y ≤ f := by omega
      obtain ⟨ha, hb, hc⟩ := ih (y + 1) (d - daysInYear y) h1
      rw [splitYearGo, if_neg (by omega)]
      refine ⟨?_, hb, by omega⟩
      rw [yearsSum_succ_left y _ (by omega)]
      omega

theorem splitMonthGo_spec : ∀ (fuel y m d : Nat), d ≤ fuel →
    monthsSum y m (splitMonthGo fuel y m d).1 + (splitMonthGo fuel y m d).2 = d ∧
    (splitMonthGo fuel y m d).2 < monthDays y (splitMonthGo fuel y m d).1 ∧
    m ≤ (splitMonthGo fuel y m d).1 := by
  intro fuel
  induction fuel with
  | zero =>
    intro y m d hd
    have hd0 : d = 0 := Nat.le_zero.1 hd
    subst hd0
    refine ⟨?_, ?_, le_rfl⟩
    · rw [splitMonthGo, monthsSum_self]
      rfl
    · rw [splitMonthGo]
      exact Nat.lt_of_lt_of_le (by norm_num) (monthDays_ge y m)
  | succ f ih =>
    intro y m d hd
    by_cases hlt : d < monthDays y m
    · rw [splitMonthGo, if_pos hlt]
      exact ⟨by rw [monthsSum_self]; simp, hlt, le_rfl⟩
    · push_neg at hlt
      have h28 := monthDays_ge y m
      have h1 : d - monthDays y m ≤ f := by omega
      obtain ⟨ha, hb, hc⟩ := ih y (m + 1) (d - monthDays y m) h1
      rw [splitMonthGo, if_neg (by omega)]
      refine ⟨?_, hb, by omega⟩
      rw [monthsSum_succ_left y m _ (by omega)]
      omega

theorem splitMonthGo_fst_le : ∀ (fuel y m d : Nat),
    (splitMonthGo fuel y m d).1 ≤ m + d / 28 := by
  intro fuel
  induction fuel with
  | zero =>
    intro y m d
    rw [splitMonthGo]
    omega
  | succ f ih =>
    intro y m d
    by_cases hlt : d < monthDays y m
    · rw [splitMonthGo, if_pos hlt]
      omega
    · push_neg at hlt
      have h28 := monthDays_ge y m
      have := ih y (m + 1) (d - monthDays y m)
      rw [splitMonthGo, if_neg (by omega)]
      omega

theorem daysUpto_succ (y : Nat) : daysUpto (y + 1) = daysUpto y + daysInYear y := by
  unfold daysUpto daysInYear isLeap
  by_cases h4 : y % 4 = 0 <;> by_cases h100 : y % 100 = 0 <;> by_cases h400 : y % 400 = 0 <;>
    simp [h4, h100, h400] <;> omega

theorem yearsSumGo_closed : ∀ (k y : Nat), yearsSumGo k y + daysUpto y = daysUpto (y + k) := by
  intro k
  induction k with
  | zero => intro y; simp [yearsSumGo]
  | succ n ih =>
    intro y
    have hstep := daysUpto_succ y
    have hrec := ih (y + 1)
    have harg : y + 1 + n = y + (n + 1) := by omega
    rw [harg] at hrec
    rw [yearsSumGo]
    omega

theorem dVal_dChar (d : Nat) (h : d < 10) : dVal (dChar d) = d := by
  interval_cases d <;> rfl

theorem isDig_dChar (d : Nat) (h : d < 10) : isDig (dChar d) = true := by
  interval_cases d <;> rfl

theorem readDig_dChar (d : Nat) (h : d < 10) (rest : List Char) :
    readDig (dChar d :: rest) = some (d, rest) := by
  rw [readDig, if_pos (isDig_dChar d h), dVal_dChar d h]

theorem read2_digits (n : Nat) (h : n < 100) (rest : List Char) :
    read2 (dChar (n / 10 % 10) :: dChar (n % 10) :: rest) = some (n, rest) := by
  have h1 : n / 10 % 10 < 10 := Nat.mod_lt _ (by norm_num)
  have h2 : n % 10 < 10 := Nat.mod_lt _ (by norm_num)
  rw [read2, readDig_dChar _ h1, Option.some_bind]
  rw [readDig_dChar _ h2]
  have : n / 10 % 10 * 10 + n % 10 = n := by omega
  simp [this]

theorem read4_digits (n : Nat) (h : n < 10000) (rest : List Char) :
    read4 (dChar (n / 1000 % 10) :: dChar (n / 100 % 10) :: dChar (n / 10 % 10) ::
      dChar (n % 10) :: rest) = some (n, rest) := by
  have e1 : n / 1000 % 10 = (n / 100) / 10 % 10 := by omega
  have e2 : n / 100 % 10 = (n / 100) % 10 := by omega
  have e3 : n / 10 % 10 = (n % 100) / 10 % 10 := by omega
  have e4 : n % 10 = (n % 100) % 10 := by omega
  rw [read4, e1, e2, read2_digits (n / 100) (by omega), Option.some_bind]
  rw [e3, e4, read2_digits (n % 100) (by omega)]
  have : n / 100 * 100 + n % 100 = n := by omega
  simp [this]

theorem readSep_cons (x : Char) (rest : List Char) : readSep x (x :: rest) = some rest := by
  rw [readSep, if_pos rfl]

theorem string_data_append (a b : String) : (a ++ b).data = a.data ++ b.data := by
  cases a; cases b; rfl

theorem pad2_data (n : Nat) : (pad2 n).data = [dChar (n / 10 % 10), dChar (n % 10)] := rfl

theorem pad4_data (n : Nat) : (pad4 n).data =
    [dChar (n / 1000 % 10), dChar (n / 100 % 10), dChar (n / 10 % 10), dChar (n % 10)] := rfl

/-- C8: for every valid integer epoch-seconds input (non-negative and inside
Python `datetime`'s supported range, which ends at 9999-12-31T23:59:59 =
epoch 253402300799), `parse_timestamp` produces an ISO-8601 UTC string with
an explicit `Z` marker, and parsing the string back yields exactly `t`
(round-trip error zero, in particular at most one second). -/
theorem parse_timestamp_roundtrip (t : Nat) (h : t < 253402300800) :
    parseIsoZ (parse_timestamp t) = some t ∧ ∃ u, parse_timestamp t = u ++ "Z" := by
  constructor
  · have hdays : t / 86400 < 2932897 := by omega
    obtain ⟨hy1, hy2, hy3⟩ := splitYearGo_spec (t / 86400) 1970 (t / 86400) le_rfl
    obtain ⟨hm1, hm2, hm3⟩ :=
      splitMonthGo_spec (splitYearGo (t / 86400) 1970 (t / 86400)).2
        (splitYearGo (t / 86400) 1970 (t / 86400)).1 1
        (splitYearGo (t / 86400) 1970 (t / 86400)).2 le_rfl
    set yd := splitYearGo (t / 86400) 1970 (t / 86400) with hyd
    set md := splitMonthGo yd.2 yd.1 1 yd.2 with hmd
    -- year bound
    have hclosed := yearsSumGo_closed (yd.1 - 1970) 1970
    have hrw : 1970 + (yd.1 - 1970) = yd.1 := by omega
    rw [hrw] at hclosed
    have hys : yearsSum 1970 yd.1 = yearsSumGo (yd.1 - 1970) 1970 := rfl
    have h1970 : daysUpto 1970 = 719528 := by norm_num [daysUpto]
    have hupto : daysUpto yd.1 =
        365 * yd.1 + (yd.1 + 3) / 4 - (yd.1 + 99) / 100 + (yd.1 + 399) / 400 := rfl
    have hY : yd.1 < 10000 := by omega
    -- month and day bounds
    have hdlt : yd.2 ≤ 365 := by
      have := daysInYear_le yd.1
      omega
    have hMle := splitMonthGo_fst_le yd.2 yd.1 1 yd.2
    rw [← hmd] at hMle
    have hM : md.1 < 100 := by omega
    have hmdle := monthDays_le yd.1 md.1
    have hD : md.2 + 1 < 100 := by omega
    have hh1 : t % 86400 / 3600 < 100 := by omega
    have hh2 : t % 86400 % 3600 / 60 < 100 := by omega
    have hh3 : t % 86400 % 60 < 100 := by omega
    -- evaluate the parser on the rendered string
    show parseIsoZ
      (pad4 yd.1 ++ "-" ++ pad2 md.1 ++ "-" ++ pad2 (md.2 + 1) ++ "T" ++
        pad2 (t % 86400 / 3600) ++ ":" ++ pad2 (t % 86400 % 3600 / 60) ++ ":" ++
        pad2 (t % 86400 % 60) ++ "Z") = some t
    rw [parseIsoZ]
    simp only [string_data_append, pad4_data, pad2_data, List.cons_append, List.nil_append,
      List.append_assoc]
    simp only [read4_digits yd.1 hY, readSep_cons, Option.some_bind,
      read2_digits md.1 hM, read2_digits (md.2 + 1) hD,
      read2_digits (t % 86400 / 3600) hh1, read2_digits (t % 86400 % 3600 / 60) hh2,
      read2_digits (t % 86400 % 60) hh3]
    rw [if_true]
    refine congrArg some ?_
    have hcivil : daysFromCivil yd.1 md.1 (md.2 + 1) = t / 86400 := by
      unfold daysFromCivil
      omega
    omega
  · exact ⟨_, rfl⟩

/-- Witness for `parse_timestamp_roundtrip` at the concrete epoch
`1700000000` (2023-11-14T22:13:20Z). -/
theorem parse_timestamp_roundtrip_witness :
    1700000000 < 253402300800 ∧
    (parseIsoZ (parse_timestamp 1700000000) = some 1700000000 ∧
     ∃ u, parse_timestamp 1700000000 = u ++ "Z") :=
  ⟨by norm_num, parse_timestamp_roundtrip 1700000000 (by norm_num)⟩

theorem char_lt_iff_toNat (a b : Char) : a < b ↔ a.toNat < b.toNat := by
  rw [Char.lt_iff_val_lt_val]
  exact Iff.rfl

theorem char_eq_of_toNat (a b : Char) (h : a.toNat = b.toNat) : a = b :=
  Char.ext (UInt32.ext h)

theorem charsLt_iff : ∀ as bs : List Char, charsLt as bs = true ↔ as < bs
  | [], [] => by
    rw [charsLt]
    constructor
    · intro h; cases h
    · intro h; cases h
  | [], b :: bs => by
    rw [charsLt]
    constructor
    · intro _; exact List.Lex.nil
    · intro _; rfl
  | a :: as, [] => by
    rw [charsLt]
    constructor
    · intro h; cases h
    · intro h; cases h
  | a :: as, b :: bs => by
    have ih := charsLt_iff as bs
    rw [charsLt]
    by_cases h1 : a.toNat < b.toNat
    · rw [if_pos h1]
      constructor
      · intro _
        exact List.Lex.rel ((char_lt_iff_toNat a b).2 h1)
      · intro _; rfl
    · rw [if_neg h1]
      by_cases h2 : b.toNat < a.toNat
      · rw [if_pos h2]
        constructor
        · intro h; cases h
        · intro h
          cases h with
          | cons htl => exact absurd h2 (by omega)
          | rel hr => exact absurd ((char_lt_iff_toNat a b).1 hr) h1
      · rw [if_neg h2]
        have hab : a = b := char_eq_of_toNat a b (by omega)
        subst hab
        constructor
        · intro h
          exact List.Lex.cons (ih.1 h)
        · intro h
          cases h with
          | cons htl => exact ih.2 htl
          | rel hr => exact absurd ((char_lt_iff_toNat a a).1 hr) h1

theorem string_charsLt_iff (a b : String) : charsLt a.data b.data = true ↔ a < b := by
  rw [String.lt_iff_toList_lt]
  exact charsLt_iff a.data b.data

theorem pyMin_le_left (a x : String) : pyMin a x ≤ a := by
  unfold pyMin
  split
  · rename_i h
    exact le_of_lt ((string_charsLt_iff x a).1 h)
  · exact le_rfl

theorem pyMin_le_right (a x : String) : pyMin a x ≤ x := by
  unfold pyMin
  split
  · exact le_rfl
  · rename_i h
    exact le_of_not_lt (fun hlt => h ((string_charsLt_iff x a).2 hlt))

theorem pyMin_eq_or (a x : String) : pyMin a x = a ∨ pyMin a x = x := by
  unfold pyMin
  split
  · exact Or.inr rfl
  · exact Or.inl rfl

theorem pyMax_le_left (a x : String) : a ≤ pyMax a x := by
  unfold pyMax
  split
  · rename_i h
    exact le_of_lt ((string_charsLt_iff a x).1 h)
  · exact le_rfl

theorem pyMax_le_right (a x : String) : x ≤ pyMax a x := by
  unfold pyMax
  split
  · exact le_rfl
  · rename_i h
    exact le_of_not_lt (fun hlt => h ((string_charsLt_iff a x).2 hlt))

theorem pyMax_eq_or (a x : String) : pyMax a x = a ∨ pyMax a x = x := by
  unfold pyMax
  split
  · exact Or.inr rfl
  · exact Or.inl rfl

theorem foldl_pyMin_mem : ∀ (ds : List String) (d0 : String), ds.foldl pyMin d0 ∈ d0 :: ds := by
  intro ds
  induction ds with
  | nil => intro d0; simp
  | cons x xs ih =>
    intro d0
    rw [List.foldl_cons]
    have hmem := ih (pyMin d0 x)
    rcases List.mem_cons.1 hmem with heq | htl
    · rw [heq]
      rcases pyMin_eq_or d0 x with h | h <;> simp [h]
    · simp [List.mem_cons.2 (Or.inr (List.mem_cons.2 (Or.inr htl)))]

theorem foldl_pyMin_le : ∀ (ds : List String) (d0 x : String), x ∈ d0 :: ds →
    ds.foldl pyMin d0 ≤ x := by
  intro ds
  induction ds with
  | nil =>
    intro d0 x hx
    simp at hx
    subst hx
    simp
  | cons y ys ih =>
    intro d0 x hx
    rw [List.foldl_cons]
    have hacc : ys.foldl pyMin (pyMin d0 y) ≤ pyMin d0 y :=
      ih (pyMin d0 y) (pyMin d0 y) (by simp)
    rcases List.mem_cons.1 hx with rfl | hx2
    · exact le_trans hacc (pyMin_le_left x y)
    rcases List.mem_cons.1 hx2 with rfl | hx3
    · exact le_trans hacc (pyMin_le_right d0 x)
    · exact ih (pyMin d0 y) x (List.mem_cons.2 (Or.inr hx3))

theorem foldl_pyMax_mem : ∀ (ds : List String) (d0 : String), ds.foldl pyMax d0 ∈ d0 :: ds := by
  intro ds
  induction ds with
  | nil => intro d0; simp
  | cons x xs ih =>
    intro d0
    rw [List.foldl_cons]
    have hmem := ih (pyMax d0 x)
    rcases List.mem_cons.1 hmem with heq | htl
    · rw [heq]
      rcases pyMax_eq_or d0 x with h | h <;> simp [h]
    · simp [List.mem_cons.2 (Or.inr (List.mem_cons.2 (Or.inr htl)))]

theorem foldl_pyMax_ge : ∀ (ds : List String) (d0 x : String), x ∈ d0 :: ds →
    x ≤ ds.foldl pyMax d0 := by
  intro ds
  induction ds with
  | nil =>
    intro d0 x hx
    simp at hx
    subst hx
    simp
  | cons y ys ih =>
    intro d0 x hx
    rw [List.foldl_cons]
    have hacc : pyMax d0 y ≤ ys.foldl pyMax (pyMax d0 y) :=
      ih (pyMax d0 y) (pyMax d0 y) (by simp)
    rcases List.mem_cons.1 hx with rfl | hx2
    · exact le_trans (pyMax_le_left x y) hacc
    rcases List.mem_cons.1 hx2 with rfl | hx3
    · exact le_trans (pyMax_le_right d0 x) hacc
    · exact ih (pyMax d0 y) x (List.mem_cons.2 (Or.inr hx3))

/-! ## Claim theorems -/

/-- C2: when neither `data/tweets.js` nor `data/tweet.js` exists in the
archive, the Twitter run aborts with the `FileNotFoundError` raised by
`extract_tweets`, and no output file is written. -/
theorem twitter_missing_tweets_aborts (fs : Twitter.TwitterFS)
    (h1 : fs.tweetsJs = none) (h2 : fs.tweetJs = none) :
    Twitter.twitterMain fs = .error "FileNotFoundError: Could not find tweets.js" ∧
    Twitter.twitterOutput fs = none := by
  have hext : Twitter.extract_tweets fs =
      .error "FileNotFoundError: Could not find tweets.js" := by
    unfold Twitter.extract_tweets
    rw [h1, h2]
  have hmain : Twitter.twitterMain fs =
      .error "FileNotFoundError: Could not find tweets.js" := by
    unfold Twitter.twitterMain
    rw [hext]
  refine ⟨hmain, ?_⟩
  unfold Twitter.twitterOutput
  rw [hmain]

/-- Witness for `twitter_missing_tweets_aborts`: the empty archive. -/
theorem twitter_missing_tweets_aborts_witness :
    ({} : Twitter.TwitterFS).tweetsJs = none ∧ ({} : Twitter.TwitterFS).tweetJs = none ∧
    (Twitter.twitterMain {} = .error "FileNotFoundError: Could not find tweets.js" ∧
     Twitter.twitterOutput {} = none) :=
  ⟨rfl, rfl, twitter_missing_tweets_aborts {} rfl rfl⟩

/-- C7: ordered fallback key extraction, as used for the LinkedIn share
content field, returns the value of the first candidate key present in the
row even when the later candidate key is also present with a different
value, and only when neither is present does it return the caller-supplied
default. -/
theorem dget_ordered_fallback (row : LinkedIn.Row) (v : String) :
    (LinkedIn.dlookup row "ShareCommentary" = some v →
      LinkedIn.dget row "ShareCommentary" (LinkedIn.dget row "Share Commentary" "") = v) ∧
    (LinkedIn.dlookup row "ShareCommentary" = none →
      LinkedIn.dlookup row "Share Commentary" = some v →
      LinkedIn.dget row "ShareCommentary" (LinkedIn.dget row "Share Commentary" "") = v) ∧
    (LinkedIn.dlookup row "ShareCommentary" = none →
      LinkedIn.dlookup row "Share Commentary" = none →
      LinkedIn.dget row "ShareCommentary" (LinkedIn.dget row "Share Commentary" "") = "") ∧
    (∀ i ∈ LinkedIn.extract_shares [row],
      i.content = LinkedIn.dget row "ShareCommentary"
        (LinkedIn.dget row "Share Commentary" "")) := by
  refine ⟨?_, ?_, ?_, ?_⟩
  · intro h
    unfold LinkedIn.dget
    rw [h]
    rfl
  · intro h1 h2
    unfold LinkedIn.dget
    rw [h1, h2]
    rfl
  · intro h1 h2
    unfold LinkedIn.dget
    rw [h1, h2]
    rfl
  · intro i hi
    unfold LinkedIn.extract_shares at hi
    simp only [List.filterMap_cons, List.filterMap_nil] at hi
    by_cases hc : stripTruthy
        (LinkedIn.dget row "ShareCommentary" (LinkedIn.dget row "Share Commentary" "")) = true
    · rw [if_pos hc] at hi
      simp at hi
      subst hi
      rfl
    · rw [if_neg hc] at hi
      simp at hi

/-- Witness for `dget_ordered_fallback`: both candidate keys present with
different values; the first wins. -/
theorem dget_ordered_fallback_witness :
    LinkedIn.dlookup [("ShareCommentary", "first"), ("Share Commentary", "second")]
      "ShareCommentary" = some "first" ∧
    LinkedIn.dget [("ShareCommentary", "first"), ("Share Commentary", "second")]
      "ShareCommentary"
      (LinkedIn.dget [("ShareCommentary", "first"), ("Share Commentary", "second")]
        "Share Commentary" "") = "first" :=
  ⟨by decide,
   (dget_ordered_fallback [("ShareCommentary", "first"), ("Share Commentary", "second")]
     "first").1 (by decide)⟩

/-- C9: the Instagram like extractor emits exactly one `like` item per raw
like record (none is ever dropped, whatever fields are missing and even for
non-dict records), every emitted like item has an empty `id`, and the
reported `total_likes` equals the number of raw like records. -/
theorem instagram_likes_counted (ls : List Instagram.RawLike) :
    (Instagram.extract_likes ls).length = ls.length ∧
    (∀ i ∈ Instagram.extract_likes ls, i.id = "" ∧ i.type = "like") ∧
    (∀ posts comments,
      (Instagram.instagramMain posts comments ls).total_likes = ls.length) := by
  refine ⟨?_, ?_, ?_⟩
  · unfold Instagram.extract_likes
    exact List.length_map _ _
  · intro i hi
    unfold Instagram.extract_likes at hi
    rcases List.mem_map.1 hi with ⟨lk, _, rfl⟩
    exact ⟨rfl, rfl⟩
  · intro posts comments
    show (Instagram.extract_likes ls).length = ls.length
    unfold Instagram.extract_likes
    exact List.length_map _ _

/-- Witness for `instagram_likes_counted`: a single field-less (non-dict)
like record still yields exactly one like item with empty id. -/
theorem instagram_likes_counted_witness :
    (Instagram.extract_likes [Instagram.RawLike.other]).length = 1 ∧
    (({ id := "", type := "like", timestamp := none, content := "",
        metadata := { platform := "instagram", engagement := [], context := none } } : Item) ∈
      Instagram.extract_likes [Instagram.RawLike.other] ∧
     ({ id := "", type := "like", timestamp := none, content := "",
        metadata := { platform := "instagram", engagement := [], context := none } } : Item).id
       = "") ∧
    (Instagram.instagramMain [] [] [Instagram.RawLike.other]).total_likes = 1 :=
  ⟨(instagram_likes_counted [Instagram.RawLike.other]).1,
   ⟨by decide,
    ((instagram_likes_counted [Instagram.RawLike.other]).2.1 _ (by decide)).1⟩,
   (instagram_likes_counted [Instagram.RawLike.other]).2.2 [] []⟩

theorem leadsWith_iff : ∀ (pat l : List Nat),
    Instagram.leadsWith pat l = true ↔ ∃ l2, l = pat ++ l2 := by
  intro pat
  induction pat with
  | nil =>
    intro l
    rw [Instagram.leadsWith]
    simp
  | cons p ps ih =>
    intro l
    cases l with
    | nil =>
      rw [Instagram.leadsWith]
      simp
    | cons c cs =>
      rw [Instagram.leadsWith]
      rw [Bool.and_eq_true, beq_iff_eq, ih cs]
      constructor
      · rintro ⟨rfl, l2, rfl⟩
        exact ⟨l2, rfl⟩
      · rintro ⟨l2, heq⟩
        rw [List.cons_append] at heq
        injection heq with h1 h2
        exact ⟨h1.symm, l2, h2⟩

theorem containsSeq_iff : ∀ (hay pat : List Nat),
    Instagram.containsSeq pat hay = true ↔ ∃ l1 l2, hay = l1 ++ pat ++ l2 := by
  intro hay
  induction hay with
  | nil =>
    intro pat
    rw [Instagram.containsSeq, leadsWith_iff]
    constructor
    · rintro ⟨l2, heq⟩
      exact ⟨[], l2, heq⟩
    · rintro ⟨l1, l2, heq⟩
      cases l1 with
      | nil => exact ⟨l2, heq⟩
      | cons a as => simp at heq
  | cons c cs ih =>
    intro pat
    rw [Instagram.containsSeq, Bool.or_eq_true, leadsWith_iff, ih pat]
    constructor
    · rintro (⟨l2, heq⟩ | ⟨l1, l2, heq⟩)
      · exact ⟨[], l2, by simpa using heq⟩
      · exact ⟨c :: l1, l2, by simp [heq]⟩
    · rintro ⟨l1, l2, heq⟩
      cases l1 with
      | nil => exact Or.inl ⟨l2, by simpa using heq⟩
      | cons a as =>
        rw [List.cons_append, List.cons_append] at heq
        injection heq with h1 h2
        exact Or.inr ⟨as, l2, h2⟩

/-- C10: for every emitted Instagram post item, `metadata.media_type` is
`photo` exactly when the lowercased `uri` contains the substring `photo`,
and `video` otherwise; in particular a record with no `uri` field is always
labeled `video`. -/
theorem emitMedia_some (m : Instagram.Media) (i : Item)
    (h : Instagram.emitMedia m = some i) :
    stripTruthy (fix_encoding (m.title.getD "")) = true ∧
    i = { id := m.uri.getD "", type := "post",
          timestamp := m.creation_timestamp.map parse_timestamp,
          content := fix_encoding (m.title.getD ""),
          metadata := { platform := "instagram", engagement := [], context := none,
                        media_type := some (if Instagram.containsSeq Instagram.photoCodes
                            (Instagram.pyLowerCodes (m.uri.getD ""))
                          then "photo" else "video") } } := by
  unfold Instagram.emitMedia at h
  by_cases hs : stripTruthy (fix_encoding (m.title.getD "")) = true
  · refine ⟨hs, ?_⟩
    simp only [hs, if_true] at h
    exact (Option.some.inj h).symm
  · exfalso
    simp [hs] at h

/-- C10: for every emitted Instagram post item, `metadata.media_type` is
`photo` exactly when the lowercased `uri` contains the substring `photo`,
and `video` otherwise; in particular a record with no `uri` field is always
labeled `video`. -/
theorem instagram_media_type_iff (m : Instagram.Media) (i : Item)
    (h : Instagram.emitMedia m = some i) :
    (i.metadata.media_type = some "photo" ↔
      ∃ l1 l2, Instagram.pyLowerCodes (m.uri.getD "") =
        l1 ++ Instagram.photoCodes ++ l2) ∧
    (i.metadata.media_type = some "photo" ∨ i.metadata.media_type = some "video") ∧
    (m.uri = none → i.metadata.media_type = some "video") := by
  obtain ⟨hs, hi⟩ := emitMedia_some m i h
  subst hi
  by_cases hphi : Instagram.containsSeq Instagram.photoCodes
      (Instagram.pyLowerCodes (m.uri.getD "")) = true
  · refine ⟨?_, ?_, ?_⟩
    · simp only [hphi, if_true]
      simp only [true_iff]
      exact (containsSeq_iff _ _).1 hphi
    · simp [hphi]
    · intro hnone
      rw [hnone] at hphi
      exact absurd hphi (by decide)
  · refine ⟨?_, ?_, ?_⟩
    · simp only [Bool.not_eq_true] at hphi
      simp only [hphi, if_false]
      constructor
      · intro hv
        exact absurd (Option.some.inj hv) (by decide)
      · intro hex
        exact absurd ((containsSeq_iff _ _).2 hex) (by simp [hphi])
    · simp only [Bool.not_eq_true] at hphi
      simp [hphi]
    · intro _
      simp only [Bool.not_eq_true] at hphi
      simp [hphi]

/-- Witness for `instagram_media_type_iff`: a record whose uri contains
`PHOTO` is labeled photo. -/
theorem instagram_media_type_iff_witness :
    Instagram.emitMedia { title := some "hi", uri := some "x/PHOTO/1.jpg" } =
      some { id := "x/PHOTO/1.jpg", type := "post", timestamp := none, content := "hi",
             metadata := { platform := "instagram", engagement := [], context := none,
                           media_type := some "photo" } } ∧
    (({ id := "x/PHOTO/1.jpg", type := "post", timestamp := none, content := "hi",
        metadata := { platform := "instagram", engagement := [], context := none,
                      media_type := some "photo" } } : Item).metadata.media_type
        = some "photo" ↔
      ∃ l1 l2, Instagram.pyLowerCodes
          (({ title := some "hi", uri := some "x/PHOTO/1.jpg" } : Instagram.Media).uri.getD "")
        = l1 ++ Instagram.photoCodes ++ l2) :=
  ⟨by decide,
   (instagram_media_type_iff { title := some "hi", uri := some "x/PHOTO/1.jpg" } _
     (by decide)).1⟩

theorem emitMedia_isSome_iff (m : Instagram.Media) :
    (Instagram.emitMedia m).isSome = true ↔
      stripTruthy (fix_encoding (m.title.getD "")) = true := by
  unfold Instagram.emitMedia
  by_cases hs : stripTruthy (fix_encoding (m.title.getD "")) = true <;> simp [hs]

theorem extract_posts_flat (ms : List Instagram.Media) :
    Instagram.extract_posts (ms.map Instagram.RawPost.flat) =
      ms.filterMap Instagram.emitMedia := by
  induction ms with
  | nil => rfl
  | cons m rest ih =>
    rw [List.map_cons, List.filterMap_cons]
    unfold Instagram.extract_posts at ih ⊢
    rw [List.flatMap_cons, ih]
    show List.filterMap Instagram.emitMedia [m] ++ _ = _
    rw [List.filterMap_cons, List.filterMap_nil]
    cases hq : Instagram.emitMedia m <;> simp

theorem filterMap_emit_length (ms : List Instagram.Media) :
    (ms.filterMap Instagram.emitMedia).length =
      (ms.filter (fun m => stripTruthy (fix_encoding (m.title.getD "")))).length := by
  induction ms with
  | nil => rfl
  | cons m rest ih =>
    rw [List.filterMap_cons, List.filter_cons]
    by_cases hs : stripTruthy (fix_encoding (m.title.getD "")) = true
    · obtain ⟨i, hi⟩ := Option.isSome_iff_exists.1 ((emitMedia_isSome_iff m).2 hs)
      rw [hi]
      simp [hs, ih]
    · have hnone : Instagram.emitMedia m = none := by
        cases hq : Instagram.emitMedia m with
        | none => rfl
        | some i => exact absurd ((emitMedia_isSome_iff m).1 (by simp [hq])) hs
      rw [hnone]
      simp [hs, ih]

theorem extract_posts_type (posts : List Instagram.RawPost) :
    ∀ i ∈ Instagram.extract_posts posts, i.type = "post" := by
  intro i hi
  unfold Instagram.extract_posts at hi
  rw [List.mem_flatMap] at hi
  obtain ⟨p, _, hp⟩ := hi
  rw [List.mem_filterMap] at hp
  obtain ⟨m, _, hm⟩ := hp
  rw [(emitMedia_some m i hm).2]

theorem extract_comments_mem (cs : List Instagram.RawComment) (i : Item)
    (hi : i ∈ Instagram.extract_comments cs) :
    ∃ cm ∈ cs, stripTruthy (Instagram.commentText cm) = true ∧
      i = { id := "", type := "comment",
            timestamp := Instagram.timestampIfTruthy (Instagram.commentTimestampOf cm),
            content := Instagram.commentText cm,
            metadata := { platform := "instagram", engagement := [], context := none } } := by
  unfold Instagram.extract_comments at hi
  rw [List.mem_filterMap] at hi
  obtain ⟨cm, hcm, hf⟩ := hi
  refine ⟨cm, hcm, ?_⟩
  by_cases hs : stripTruthy (Instagram.commentText cm) = true
  · simp only [hs, if_true] at hf
    exact ⟨hs, (Option.some.inj hf).symm⟩
  · simp [hs] at hf

theorem extract_likes_mem (ls : List Instagram.RawLike) (i : Item)
    (hi : i ∈ Instagram.extract_likes ls) :
    ∃ lk ∈ ls,
      i = { id := "", type := "like",
            timestamp := Instagram.timestampIfTruthy (Instagram.likeTimestampOf lk),
            content := "",
            metadata := { platform := "instagram", engagement := [], context := none } } := by
  unfold Instagram.extract_likes at hi
  rw [List.mem_map] at hi
  obtain ⟨lk, hlk, hf⟩ := hi
  exact ⟨lk, hlk, hf.symm⟩

theorem instagram_total_posts_eq (posts : List Instagram.RawPost)
    (cs : List Instagram.RawComment) (ls : List Instagram.RawLike) :
    (Instagram.instagramMain posts cs ls).total_posts =
      ((Instagram.instagramMain posts cs ls).items.filter
        (fun i => i.type == "post")).length := by
  show (Instagram.extract_posts posts).length =
    ((Instagram.extract_posts posts ++ Instagram.extract_comments cs ++
      Instagram.extract_likes ls).filter (fun i => i.type == "post")).length
  rw [List.filter_append, List.filter_append]
  have h1 : (Instagram.extract_posts posts).filter (fun i => i.type == "post") =
      Instagram.extract_posts posts := by
    rw [List.filter_eq_self]
    intro i hi
    simp [extract_posts_type posts i hi]
  have h2 : (Instagram.extract_comments cs).filter (fun i => i.type == "post") = [] := by
    rw [List.filter_eq_nil_iff]
    intro i hi
    obtain ⟨cm, _, _, hi2⟩ := extract_comments_mem cs i hi
    simp [hi2]
  have h3 : (Instagram.extract_likes ls).filter (fun i => i.type == "post") = [] := by
    rw [List.filter_eq_nil_iff]
    intro i hi
    obtain ⟨lk, _, hi2⟩ := extract_likes_mem ls i hi
    simp [hi2]
  rw [h1, h2, h3]
  simp

/-- C6: exactly the raw content records with non-whitespace (repaired) text
produce output items, the posts stat equals the number of emitted post-kind
items, and in particular 3 records with one empty text yield exactly 2
`post` items and `total_posts = 2`. -/
theorem instagram_posts_count (ms : List Instagram.Media) :
    (Instagram.extract_posts (ms.map Instagram.RawPost.flat)).length =
      (ms.filter (fun m => stripTruthy (fix_encoding (m.title.getD "")))).length ∧
    (∀ m : Instagram.Media, (Instagram.emitMedia m).isSome = true ↔
      stripTruthy (fix_encoding (m.title.getD "")) = true) ∧
    (∀ posts cs ls, (Instagram.instagramMain posts cs ls).total_posts =
      ((Instagram.instagramMain posts cs ls).items.filter
        (fun i => i.type == "post")).length) ∧
    ((Instagram.instagramMain
        [Instagram.RawPost.flat { title := some "first post" },
         Instagram.RawPost.flat { title := some "" },
         Instagram.RawPost.flat { title := some "third post" }] [] []).total_posts = 2 ∧
     ((Instagram.instagramMain
        [Instagram.RawPost.flat { title := some "first post" },
         Instagram.RawPost.flat { title := some "" },
         Instagram.RawPost.flat { title := some "third post" }] [] []).items.filter
          (fun i => i.type == "post")).length = 2) :=
  ⟨by rw [extract_posts_flat, filterMap_emit_length],
   emitMedia_isSome_iff,
   instagram_total_posts_eq,
   by decide,
   by decide⟩

theorem parseTweetDate_some (ds iso : String) (h : Twitter.parseTweetDate ds = some iso) :
    ∃ d, iso = Twitter.isoOfTwDate d := by
  unfold Twitter.parseTweetDate at h
  cases hq : Twitter.twParse ds with
  | none => rw [hq] at h; cases h
  | some d => rw [hq] at h; exact ⟨d, (Option.some.inj h).symm⟩

theorem isoOfTwDate_ne_empty (d : Twitter.TwDate) : Twitter.isoOfTwDate d ≠ "" := by
  intro h
  have hdata : (Twitter.isoOfTwDate d).data = [] := by rw [h]
  cases hb : d.negOff <;>
    simp [Twitter.isoOfTwDate, hb, string_data_append, pad4_data, pad2_data] at hdata

theorem processTweets_ok (raw : List Twitter.TweetEntry) (items : List Item)
    (h : Twitter.processTweets raw = .ok items) :
    ∀ i ∈ items, stripTruthy i.content = true ∧
      (∃ s, i.timestamp = some s ∧ s ≠ "") ∧
      (i.type = "post" ∨ i.type = "reply") := by
  induction raw generalizing items with
  | nil =>
    unfold Twitter.processTweets at h
    obtain rfl := Except.ok.inj h
    intro i hi
    exact absurd hi (List.not_mem_nil i)
  | cons e rest ih =>
    unfold Twitter.processTweets at h
    by_cases hs : stripTruthy ((Twitter.TweetEntry.tweet e).full_text.getD
        ((Twitter.TweetEntry.tweet e).text.getD "")) = true
    · cases hca : (Twitter.TweetEntry.tweet e).created_at with
      | none => simp [hs, hca] at h
      | some ds =>
        cases hpd : Twitter.parseTweetDate ds with
        | none => simp [hs, hca, hpd] at h
        | some iso =>
          cases hrec : Twitter.processTweets rest with
          | error msg => simp [hs, hca, hpd, hrec] at h
          | ok its =>
            simp only [hs, if_true, hca, hpd, hrec] at h
            obtain rfl := Except.ok.inj h
            intro i hi
            rcases List.mem_cons.1 hi with rfl | htl
            · refine ⟨hs, ?_, ?_⟩
              · obtain ⟨d, rfl⟩ := parseTweetDate_some ds iso hpd
                exact ⟨_, rfl, isoOfTwDate_ne_empty d⟩
              · by_cases hr : ((Twitter.TweetEntry.tweet e).in_reply_to_status_id_str.getD "")
                    ≠ ""
                · exact Or.inr (by simp [hr])
                · exact Or.inl (by simp [hr])
            · exact ih its hrec i htl
    · simp only [hs] at h
      simp only [Bool.false_eq_true, if_false] at h
      exact ih items h

theorem twitter_extract_likes_mem (fs : Twitter.TwitterFS) (i : Item)
    (hi : i ∈ Twitter.extract_likes fs) :
    stripTruthy i.content = true ∧ i.type = "like" ∧ i.timestamp = none := by
  unfold Twitter.extract_likes at hi
  cases hq : fs.likeJs with
  | none => rw [hq] at hi; exact absurd hi (List.not_mem_nil i)
  | some raw =>
    rw [hq] at hi
    rw [List.mem_filterMap] at hi
    obtain ⟨e, _, hf⟩ := hi
    by_cases hs : stripTruthy ((Twitter.LikeEntry.like e).fullText.getD "") = true
    · simp only [hs, if_true] at hf
      obtain rfl := Option.some.inj hf
      exact ⟨hs, rfl, rfl⟩
    · simp [hs] at hf

theorem twitterMain_ok_shape (fs : Twitter.TwitterFS) (r : Twitter.TwitterResult)
    (h : Twitter.twitterMain fs = .ok r) :
    ∃ tweets, Twitter.extract_tweets fs = .ok tweets ∧
      r.items = tweets ++ Twitter.extract_likes fs := by
  unfold Twitter.twitterMain at h
  cases hq : Twitter.extract_tweets fs with
  | error msg => rw [hq] at h; cases h
  | ok tweets =>
    rw [hq] at h
    refine ⟨tweets, rfl, ?_⟩
    by_cases he : tweets.isEmpty
    · simp only [he, if_true] at h
      obtain rfl := Except.ok.inj h
      rfl
    · simp only [he, Bool.false_eq_true, if_false] at h
      cases ht : truthyTimestamps tweets with
      | nil => rw [ht] at h; cases h
      | cons d0 ds =>
        rw [ht] at h
        obtain rfl := Except.ok.inj h
        rfl

theorem extract_tweets_ok (fs : Twitter.TwitterFS) (tweets : List Item)
    (h : Twitter.extract_tweets fs = .ok tweets) :
    ∃ raw, Twitter.processTweets raw = .ok tweets := by
  unfold Twitter.extract_tweets at h
  cases hq : fs.tweetsJs with
  | some raw => rw [hq] at h; exact ⟨raw, h⟩
  | none =>
    rw [hq] at h
    cases hq2 : fs.tweetJs with
    | some raw => rw [hq2] at h; exact ⟨raw, h⟩
    | none => rw [hq2] at h; cases h

theorem extract_posts_mem (posts : List Instagram.RawPost) (i : Item)
    (hi : i ∈ Instagram.extract_posts posts) :
    ∃ m, Instagram.emitMedia m = some i := by
  unfold Instagram.extract_posts at hi
  rw [List.mem_flatMap] at hi
  obtain ⟨p, _, hp⟩ := hi
  rw [List.mem_filterMap] at hp
  obtain ⟨m, _, hm⟩ := hp
  exact ⟨m, hm⟩

theorem linkedin_shares_mem (rows : List LinkedIn.Row) (i : Item)
    (hi : i ∈ LinkedIn.extract_shares rows) :
    i.type = "post" ∧ stripTruthy i.content = true := by
  unfold LinkedIn.extract_shares at hi
  rw [List.mem_filterMap] at hi
  obtain ⟨r, _, hf⟩ := hi
  by_cases hs : stripTruthy
      (LinkedIn.dget r "ShareCommentary" (LinkedIn.dget r "Share Commentary" "")) = true
  · simp only [hs, if_true] at hf
    obtain rfl := Option.some.inj hf
    exact ⟨rfl, hs⟩
  · simp [hs] at hf

theorem linkedin_comments_mem (rows : List LinkedIn.Row) (i : Item)
    (hi : i ∈ LinkedIn.extract_comments rows) :
    i.type = "comment" ∧ stripTruthy i.content = true := by
  unfold LinkedIn.extract_comments at hi
  rw [List.mem_filterMap] at hi
  obtain ⟨r, _, hf⟩ := hi
  by_cases hs : stripTruthy (LinkedIn.dget r "Message" (LinkedIn.dget r "Comment" "")) = true
  · simp only [hs, if_true] at hf
    obtain rfl := Option.some.inj hf
    exact ⟨rfl, hs⟩
  · simp [hs] at hf

theorem linkedin_reactions_mem (rows : List LinkedIn.Row) (i : Item)
    (hi : i ∈ LinkedIn.extract_reactions rows) :
    i.type = "like" ∧ i.content = "" := by
  unfold LinkedIn.extract_reactions at hi
  rw [List.mem_map] at hi
  obtain ⟨r, _, hf⟩ := hi
  obtain rfl := hf.symm
  exact ⟨rfl, rfl⟩

/-- C1 (amended): every `post`, `reply` and `comment` item of any platform
has non-whitespace content, and `like` items have exactly empty content on
Instagram and LinkedIn; Twitter `like` items instead carry the liked tweet's
text, which is likewise non-whitespace (whitespace-only likes are dropped),
so on Twitter every emitted item has non-whitespace content. -/
theorem output_content_invariant :
    (∀ fs r, Twitter.twitterMain fs = .ok r → ∀ i ∈ r.items,
      stripTruthy i.content = true) ∧
    (∀ posts cs ls, ∀ i ∈ (Instagram.instagramMain posts cs ls).items,
      (i.type = "like" → i.content = "") ∧
      (i.type ≠ "like" → stripTruthy i.content = true)) ∧
    (∀ sh cm rx pos sk, ∀ i ∈ (LinkedIn.linkedinMain sh cm rx pos sk).items,
      (i.type = "like" → i.content = "") ∧
      (i.type ≠ "like" → stripTruthy i.content = true)) := by
  refine ⟨?_, ?_, ?_⟩
  · intro fs r h i hi
    obtain ⟨tweets, hext, hitems⟩ := twitterMain_ok_shape fs r h
    rw [hitems] at hi
    rcases List.mem_append.1 hi with h1 | h2
    · obtain ⟨raw, hraw⟩ := extract_tweets_ok fs tweets hext
      exact (processTweets_ok raw tweets hraw i h1).1
    · exact (twitter_extract_likes_mem fs i h2).1
  · intro posts cs ls i hi
    have hitems : (Instagram.instagramMain posts cs ls).items =
        Instagram.extract_posts posts ++ Instagram.extract_comments cs ++
          Instagram.extract_likes ls := rfl
    rw [hitems] at hi
    rcases List.mem_append.1 hi with h12 | h3
    · rcases List.mem_append.1 h12 with h1 | h2
      · obtain ⟨m, hm⟩ := extract_posts_mem posts i h1
        obtain ⟨hs, rfl⟩ := emitMedia_some m i hm
        exact ⟨fun hlike => by simp at hlike, fun _ => hs⟩
      · obtain ⟨cm, _, hs, rfl⟩ := extract_comments_mem cs i h2
        exact ⟨fun hlike => by simp at hlike, fun _ => hs⟩
    · obtain ⟨lk, _, rfl⟩ := extract_likes_mem ls i h3
      exact ⟨fun _ => rfl, fun hne => absurd rfl hne⟩
  · intro sh cm rx pos sk i hi
    have hitems : (LinkedIn.linkedinMain sh cm rx pos sk).items =
        LinkedIn.extract_shares sh ++ LinkedIn.extract_comments cm ++
          LinkedIn.extract_reactions rx := rfl
    rw [hitems] at hi
    rcases List.mem_append.1 hi with h12 | h3
    · rcases List.mem_append.1 h12 with h1 | h2
      · obtain ⟨ht, hs⟩ := linkedin_shares_mem sh i h1
        exact ⟨fun hlike => by rw [ht] at hlike; exact absurd hlike (by decide),
               fun _ => hs⟩
      · obtain ⟨ht, hs⟩ := linkedin_comments_mem cm i h2
        exact ⟨fun hlike => by rw [ht] at hlike; exact absurd hlike (by decide),
               fun _ => hs⟩
    · obtain ⟨ht, hc⟩ := linkedin_reactions_mem rx i h3
      exact ⟨fun _ => hc, fun hne => absurd ht hne⟩

/-- C1, counterexample: the Twitter pipeline emits a `like` item whose
`content` is the liked tweet's text `"hello"`, not the empty string, so the
claim that `like` items always have empty content is false. -/
theorem output_content_invariant_cex :
    Twitter.twitterMain cexLikeFS = .ok cexLikeResult ∧
    ¬ (∀ i ∈ cexLikeResult.items, i.type = "like" → i.content = "") :=
  ⟨by rfl, by decide⟩

/-- Witness for `output_content_invariant` at the concrete archive
`cexLikeFS`. -/
theorem output_content_invariant_witness :
    Twitter.twitterMain cexLikeFS = .ok cexLikeResult ∧
    cexLikeItem ∈ cexLikeResult.items ∧
    stripTruthy cexLikeItem.content = true :=
  ⟨by rfl, by decide,
   output_content_invariant.1 cexLikeFS cexLikeResult (by rfl) cexLikeItem (by decide)⟩

/-- C3 (amended): the Instagram post extractor never raises — its emitted
item has an ISO-8601 timestamp exactly when the record provides
`creation_timestamp` and null otherwise — but the Twitter tweet extractor
raises `KeyError` on any content-bearing record without `created_at` (and
`ValueError` on an unparseable one), so extraction does not succeed on every
raw record; when Twitter extraction does succeed, every emitted item carries
a non-null, non-empty timestamp string. -/
theorem extraction_timestamps :
    (∀ m : Instagram.Media, ∀ i, Instagram.emitMedia m = some i →
      (m.creation_timestamp = none → i.timestamp = none) ∧
      (∀ ts, m.creation_timestamp = some ts → i.timestamp = some (parse_timestamp ts))) ∧
    (∀ e rest, stripTruthy ((Twitter.TweetEntry.tweet e).full_text.getD
        ((Twitter.TweetEntry.tweet e).text.getD "")) = true →
      (Twitter.TweetEntry.tweet e).created_at = none →
      Twitter.processTweets (e :: rest) = .error "KeyError: created_at") ∧
    (∀ raw items, Twitter.processTweets raw = .ok items →
      ∀ i ∈ items, ∃ s, i.timestamp = some s ∧ s ≠ "") := by
  refine ⟨?_, ?_, ?_⟩
  · intro m i h
    obtain ⟨_, rfl⟩ := emitMedia_some m i h
    constructor
    · intro hn
      simp [hn]
    · intro ts hts
      simp [hts]
  · intro e rest hs hca
    unfold Twitter.processTweets
    simp [hs, hca]
  · intro raw items h i hi
    exact (processTweets_ok raw items h i hi).2.1

/-- C3, counterexample: on a content-bearing tweet record without
`created_at`, Twitter extraction raises (KeyError) instead of emitting an
item with a null timestamp, so extraction does not succeed for every raw
content record. -/
theorem extraction_timestamps_cex :
    Twitter.extract_tweets cexNoDateFS = .error "KeyError: created_at" ∧
    Twitter.twitterMain cexNoDateFS = .error "KeyError: created_at" :=
  ⟨by rfl, by rfl⟩

/-- Witness for `extraction_timestamps` at a concrete record. -/
theorem extraction_timestamps_witness :
    stripTruthy ((Twitter.TweetEntry.tweet
        (Twitter.TweetEntry.bare { full_text := some "hi" })).full_text.getD
      ((Twitter.TweetEntry.tweet
        (Twitter.TweetEntry.bare { full_text := some "hi" })).text.getD "")) = true ∧
    (Twitter.TweetEntry.tweet
        (Twitter.TweetEntry.bare { full_text := some "hi" })).created_at = none ∧
    Twitter.processTweets [Twitter.TweetEntry.bare { full_text := some "hi" }] =
      .error "KeyError: created_at" :=
  ⟨by decide, rfl,
   extraction_timestamps.2.1 (Twitter.TweetEntry.bare { full_text := some "hi" }) []
     (by decide) rfl⟩

theorem parse_timestamp_ne_empty (t : Nat) : parse_timestamp t ≠ "" := by
  intro h
  have hdata : (parse_timestamp t).data = [] := by rw [h]
  simp [parse_timestamp, string_data_append, pad4_data, pad2_data] at hdata

theorem mem_truthyTimestamps (items : List Item) (s : String) :
    s ∈ truthyTimestamps items ↔ (∃ i ∈ items, i.timestamp = some s) ∧ s ≠ "" := by
  unfold truthyTimestamps
  rw [List.mem_filterMap]
  constructor
  · rintro ⟨i, hi, hf⟩
    cases hts : i.timestamp with
    | none => rw [hts, Option.none_bind] at hf; cases hf
    | some v =>
      rw [hts, Option.some_bind] at hf
      by_cases hv : v ≠ ""
      · rw [if_pos hv] at hf
        obtain rfl := Option.some.inj hf
        exact ⟨⟨i, hi, hts⟩, hv⟩
      · rw [if_neg hv] at hf
        cases hf
  · rintro ⟨⟨i, hi, hts⟩, hs⟩
    exact ⟨i, hi, by rw [hts, Option.some_bind, if_pos hs]⟩

theorem truthyTimestamps_append (a b : List Item) :
    truthyTimestamps (a ++ b) = truthyTimestamps a ++ truthyTimestamps b := by
  unfold truthyTimestamps
  exact List.filterMap_append _ _ _

theorem dateRangeOf_spec (items : List Item)
    (hne : ∀ i ∈ items, ∀ s, i.timestamp = some s → s ≠ "") :
    DateRangeCorrect items (dateRangeOf items) := by
  constructor
  · rintro ⟨i0, hi0, hne0⟩
    cases hts0 : i0.timestamp with
    | none => exact absurd hts0 hne0
    | some s0 =>
      have hs0ne : s0 ≠ "" := hne i0 hi0 s0 hts0
      have hmem0 : s0 ∈ truthyTimestamps items :=
        (mem_truthyTimestamps items s0).2 ⟨⟨i0, hi0, hts0⟩, hs0ne⟩
      cases hT : truthyTimestamps items with
      | nil => rw [hT] at hmem0; cases hmem0
      | cons d0 ds =>
        refine ⟨ds.foldl pyMin d0, ds.foldl pyMax d0, ?_, ?_, ?_, ?_, ?_⟩
        · unfold dateRangeOf
          rw [hT]
        · have hm := foldl_pyMin_mem ds d0
          rw [← hT] at hm
          exact ((mem_truthyTimestamps items _).1 hm).1
        · have hm := foldl_pyMax_mem ds d0
          rw [← hT] at hm
          exact ((mem_truthyTimestamps items _).1 hm).1
        · exact le_trans (foldl_pyMin_le ds d0 d0 (by simp))
            (foldl_pyMax_ge ds d0 d0 (by simp))
        · intro i hi s hts
          have hsne := hne i hi s hts
          have hsmem : s ∈ d0 :: ds := by
            rw [← hT]
            exact (mem_truthyTimestamps items s).2 ⟨⟨i, hi, hts⟩, hsne⟩
          exact ⟨foldl_pyMin_le ds d0 s hsmem, foldl_pyMax_ge ds d0 s hsmem⟩
  · intro hall
    unfold dateRangeOf
    have hT : truthyTimestamps items = [] := by
      unfold truthyTimestamps
      rw [List.filterMap_eq_nil_iff]
      intro i hi
      rw [hall i hi, Option.none_bind]
    rw [hT]

theorem timestampIfTruthy_some (o : Option Nat) (s : String)
    (h : Instagram.timestampIfTruthy o = some s) : ∃ t, s = parse_timestamp t := by
  cases o with
  | none => cases h
  | some t =>
    rw [Instagram.timestampIfTruthy] at h
    by_cases ht : t ≠ 0
    · rw [if_pos ht] at h
      exact ⟨t, (Option.some.inj h).symm⟩
    · rw [if_neg ht] at h
      cases h

theorem instagram_items_timestamp_ne (posts : List Instagram.RawPost)
    (cs : List Instagram.RawComment) (ls : List Instagram.RawLike) :
    ∀ i ∈ (Instagram.instagramMain posts cs ls).items, ∀ s,
      i.timestamp = some s → s ≠ "" := by
  intro i hi s hts
  have hitems : (Instagram.instagramMain posts cs ls).items =
      Instagram.extract_posts posts ++ Instagram.extract_comments cs ++
        Instagram.extract_likes ls := rfl
  rw [hitems] at hi
  rcases List.mem_append.1 hi with h12 | h3
  · rcases List.mem_append.1 h12 with h1 | h2
    · obtain ⟨m, hm⟩ := extract_posts_mem posts i h1
      obtain ⟨_, rfl⟩ := emitMedia_some m i hm
      simp only [Option.map_eq_some'] at hts
      obtain ⟨t, _, rfl⟩ := hts
      exact parse_timestamp_ne_empty t
    · obtain ⟨cm, _, _, rfl⟩ := extract_comments_mem cs i h2
      obtain ⟨t, rfl⟩ := timestampIfTruthy_some _ s hts
      exact parse_timestamp_ne_empty t
  · obtain ⟨lk, _, rfl⟩ := extract_likes_mem ls i h3
    obtain ⟨t, rfl⟩ := timestampIfTruthy_some _ s hts
    exact parse_timestamp_ne_empty t

theorem twitter_items_timestamp_ne (fs : Twitter.TwitterFS) (r : Twitter.TwitterResult)
    (h : Twitter.twitterMain fs = .ok r) :
    ∀ i ∈ r.items, ∀ s, i.timestamp = some s → s ≠ "" := by
  obtain ⟨tweets, hext, hitems⟩ := twitterMain_ok_shape fs r h
  intro i hi s hts
  rw [hitems] at hi
  rcases List.mem_append.1 hi with h1 | h2
  · obtain ⟨raw, hraw⟩ := extract_tweets_ok fs tweets hext
    obtain ⟨s2, hs2, hs2ne⟩ := (processTweets_ok raw tweets hraw i h1).2.1
    rw [hts] at hs2
    obtain rfl := Option.some.inj hs2
    exact hs2ne
  · rw [(twitter_extract_likes_mem fs i h2).2.2] at hts
    cases hts

theorem twitterMain_ok_date_range (fs : Twitter.TwitterFS) (r : Twitter.TwitterResult)
    (h : Twitter.twitterMain fs = .ok r) :
    r.date_range = dateRangeOf r.items := by
  unfold Twitter.twitterMain at h
  cases hq : Twitter.extract_tweets fs with
  | error msg => rw [hq] at h; cases h
  | ok tweets =>
    rw [hq] at h
    have hlikes : truthyTimestamps (Twitter.extract_likes fs) = [] := by
      unfold truthyTimestamps
      rw [List.filterMap_eq_nil_iff]
      intro i hi
      rw [(twitter_extract_likes_mem fs i hi).2.2, Option.none_bind]
    by_cases he : tweets.isEmpty
    · simp only [he, if_true] at h
      obtain rfl := Except.ok.inj h
      have htw : tweets = [] := List.isEmpty_iff.1 he
      show (none : Option (String × String)) =
        dateRangeOf (tweets ++ Twitter.extract_likes fs)
      unfold dateRangeOf
      rw [truthyTimestamps_append, hlikes, htw]
      rfl
    · simp only [he, Bool.false_eq_true, if_false] at h
      cases ht : truthyTimestamps tweets with
      | nil => rw [ht] at h; cases h
      | cons d0 ds =>
        rw [ht] at h
        obtain rfl := Except.ok.inj h
        show some (ds.foldl pyMin d0, ds.foldl pyMax d0) =
          dateRangeOf (tweets ++ Twitter.extract_likes fs)
        unfold dateRangeOf
        rw [truthyTimestamps_append, hlikes, List.append_nil, ht]

/-- C5: for the Instagram result always, and for every successfully
completed Twitter run, `date_range` is present with `start`/`end` the
lexicographic min/max over the non-null item timestamps (both actual item
timestamps, so `start ≤ end`) whenever at least one item has a timestamp,
and the `date_range` field is absent when no item has one. -/
theorem date_range_spec :
    (∀ posts cs ls, DateRangeCorrect (Instagram.instagramMain posts cs ls).items
      (Instagram.instagramMain posts cs ls).date_range) ∧
    (∀ fs r, Twitter.twitterMain fs = .ok r → DateRangeCorrect r.items r.date_range) := by
  constructor
  · intro posts cs ls
    exact dateRangeOf_spec _ (instagram_items_timestamp_ne posts cs ls)
  · intro fs r h
    rw [twitterMain_ok_date_range fs r h]
    exact dateRangeOf_spec _ (twitter_items_timestamp_ne fs r h)

/-- Witness for `date_range_spec` at a concrete export with two timestamped
items and one without. -/
theorem date_range_spec_witness :
    (∃ i ∈ (Instagram.instagramMain wPosts [] wLikes).items, i.timestamp ≠ none) ∧
    (∃ a b, (Instagram.instagramMain wPosts [] wLikes).date_range = some (a, b) ∧
      (∃ i ∈ (Instagram.instagramMain wPosts [] wLikes).items, i.timestamp = some a) ∧
      (∃ i ∈ (Instagram.instagramMain wPosts [] wLikes).items, i.timestamp = some b) ∧
      a ≤ b ∧
      (∀ i ∈ (Instagram.instagramMain wPosts [] wLikes).items, ∀ s,
        i.timestamp = some s → a ≤ s ∧ s ≤ b)) :=
  ⟨by decide, (date_range_spec.1 wPosts [] wLikes).1 (by decide)⟩
